import Mathlib

/-!
Verification of the colmap bundle-adjustment cost functions
(src/colmap/estimators/cost_functions.h) against their specification.

The functors are C++ templates over a generic scalar T (evaluated at plain
doubles and at ceres forward-mode Jets); we embed them over an arbitrary
field K.  Vector, quaternion and small-matrix arithmetic follows the Eigen
formulas that the compiled code executes (Quaternion::operator*,
Quaternion::_transformVector, Quaternion::toRotationMatrix,
Quaternion::inverse).  Real-valued components (Cholesky-based square-root
information, the ceres angle-axis conversion) are embedded over ℝ.
-/

set_option maxHeartbeats 1600000

set_option linter.unusedSectionVars false

set_option linter.unusedVariables false

namespace Colmap

/-- A 3-vector over the generic scalar type. -/
@[ext]

structure V3 (K : Type) where
  x : K
  y : K
  z : K
deriving DecidableEq

/-- A quaternion over the generic scalar type, stored in Eigen coefficient
order (x, y, z, w): the pointer passed to the functors is mapped by
Eigen::Map of const Eigen::Quaternion as x, y, z, w. -/
@[ext]

structure Quat (K : Type) where
  x : K
  y : K
  z : K
  w : K
deriving DecidableEq

/-- A 3-by-3 matrix over the generic scalar type, with explicit entries
(row-major names). -/
@[ext]

structure M3 (K : Type) where
  m00 : K
  m01 : K
  m02 : K
  m10 : K
  m11 : K
  m12 : K
  m20 : K
  m21 : K
  m22 : K
deriving DecidableEq

variable {K : Type} [Field K]

instance : Add (V3 K) := ⟨fun a b => ⟨a.x + b.x, a.y + b.y, a.z + b.z⟩⟩

instance : Sub (V3 K) := ⟨fun a b => ⟨a.x - b.x, a.y - b.y, a.z - b.z⟩⟩

instance : Neg (V3 K) := ⟨fun a => ⟨-a.x, -a.y, -a.z⟩⟩

instance : Zero (V3 K) := ⟨⟨0, 0, 0⟩⟩

/-- Scalar multiple of a 3-vector. -/
def V3.scale (v : V3 K) (k : K) : V3 K := ⟨v.x * k, v.y * k, v.z * k⟩

/-- Cross product of 3-vectors (Eigen cross). -/
def V3.cross (a b : V3 K) : V3 K :=
  ⟨a.y * b.z - a.z * b.y, a.z * b.x - a.x * b.z, a.x * b.y - a.y * b.x⟩

/-- Dot product of 3-vectors. -/
def V3.dot (a b : V3 K) : K := a.x * b.x + a.y * b.y + a.z * b.z

/-- Vector part of a quaternion (Eigen vec()). -/
def Quat.vec (q : Quat K) : V3 K := ⟨q.x, q.y, q.z⟩

/-- Quaternion Hamilton product, the formula compiled for Eigen
Quaternion::operator* (ab with Hamilton convention). -/
def Quat.mul (a b : Quat K) : Quat K :=
  ⟨a.w * b.x + a.x * b.w + a.y * b.z - a.z * b.y,
   a.w * b.y + a.y * b.w + a.z * b.x - a.x * b.z,
   a.w * b.z + a.z * b.w + a.x * b.y - a.y * b.x,
   a.w * b.w - a.x * b.x - a.y * b.y - a.z * b.z⟩

/-- Quaternion conjugate (Eigen conjugate()). -/
def Quat.conj (q : Quat K) : Quat K := ⟨-q.x, -q.y, -q.z, q.w⟩

/-- Squared norm of a quaternion (Eigen squaredNorm()). -/
def Quat.normSq (q : Quat K) : K := q.x * q.x + q.y * q.y + q.z * q.z + q.w * q.w

/-- Quaternion inverse, the formula compiled for Eigen Quaternion::inverse():
conjugate divided by the squared norm. -/
def Quat.inverse (q : Quat K) : Quat K :=
  ⟨-q.x / q.normSq, -q.y / q.normSq, -q.z / q.normSq, q.w / q.normSq⟩

/-- The identity quaternion (x, y, z, w) = (0, 0, 0, 1). -/
def quatOne : Quat K := ⟨0, 0, 0, 1⟩

/-- Action of a quaternion on a 3-vector, the formula compiled for Eigen
Quaternion::_transformVector: uv := 2 (vec × v); v + w uv + vec × uv. -/
def eigenRotate (q : Quat K) (v : V3 K) : V3 K :=
  let uv0 := q.vec.cross v
  let uv := uv0 + uv0
  v + uv.scale q.w + q.vec.cross uv

/-- Rotation matrix of a quaternion, the formula compiled for Eigen
Quaternion::toRotationMatrix. -/
def Quat.toRotationMatrix (q : Quat K) : M3 K :=
  let tx := 2 * q.x
  let ty := 2 * q.y
  let tz := 2 * q.z
  let twx := tx * q.w
  let twy := ty * q.w
  let twz := tz * q.w
  let txx := tx * q.x
  let txy := ty * q.x
  let txz := tz * q.x
  let tyy := ty * q.y
  let tyz := tz * q.y
  let tzz := tz * q.z
  ⟨1 - (tyy + tzz), txy - twz, txz + twy,
   txy + twz, 1 - (txx + tzz), tyz - twx,
   txz - twy, tyz + twx, 1 - (txx + tyy)⟩

/-- Matrix-matrix product of explicit 3-by-3 matrices. -/
def M3.mul (a b : M3 K) : M3 K :=
  ⟨a.m00 * b.m00 + a.m01 * b.m10 + a.m02 * b.m20,
   a.m00 * b.m01 + a.m01 * b.m11 + a.m02 * b.m21,
   a.m00 * b.m02 + a.m01 * b.m12 + a.m02 * b.m22,
   a.m10 * b.m00 + a.m11 * b.m10 + a.m12 * b.m20,
   a.m10 * b.m01 + a.m11 * b.m11 + a.m12 * b.m21,
   a.m10 * b.m02 + a.m11 * b.m12 + a.m12 * b.m22,
   a.m20 * b.m00 + a.m21 * b.m10 + a.m22 * b.m20,
   a.m20 * b.m01 + a.m21 * b.m11 + a.m22 * b.m21,
   a.m20 * b.m02 + a.m21 * b.m12 + a.m22 * b.m22⟩

/-- Transpose of an explicit 3-by-3 matrix. -/
def M3.transpose (a : M3 K) : M3 K :=
  ⟨a.m00, a.m10, a.m20, a.m01, a.m11, a.m21, a.m02, a.m12, a.m22⟩

/-- Matrix-vector product of an explicit 3-by-3 matrix with a 3-vector. -/
def M3.mulV3 (a : M3 K) (v : V3 K) : V3 K :=
  ⟨a.m00 * v.x + a.m01 * v.y + a.m02 * v.z,
   a.m10 * v.x + a.m11 * v.y + a.m12 * v.z,
   a.m20 * v.x + a.m21 * v.y + a.m22 * v.z⟩

/-- Conversion of an explicit 3-by-3 matrix to a Mathlib matrix. -/
def M3.toMatrix (a : M3 K) : Matrix (Fin 3) (Fin 3) K :=
  !![a.m00, a.m01, a.m02; a.m10, a.m11, a.m12; a.m20, a.m21, a.m22]

/-- Conversion of a 3-vector to a Mathlib vector on Fin 3. -/
def V3.toFun (v : V3 K) : Fin 3 → K := ![v.x, v.y, v.z]

/-- The quaternion sandwich product q v q-conjugate, taken as the vector part
of the Hamilton product with the pure quaternion of v. -/
def quatSandwich (q : Quat K) (v : V3 K) : V3 K :=
  ((q.mul ⟨v.x, v.y, v.z, 0⟩).mul q.conj).vec

/-- Rigid transform: rotation quaternion plus translation (colmap Rigid3d). -/
structure Rigid3 (K : Type) where
  rotation : Quat K
  translation : V3 K

/-- Modelled from the spec: rigid-transform inversion (colmap/geometry/rigid3.h is not
among the sources).  The inverse flips direction, following the standard
rigid-transform group law: the rotation is inverted and the translation is the
inverted rotation applied to the negated translation. -/
def RigidInverse (b_from_a : Rigid3 K) : Rigid3 K :=
  let rot := b_from_a.rotation.inverse
  ⟨rot, eigenRotate rot (-b_from_a.translation)⟩

/-- Modelled from the spec: rigid-transform composition C_from_A = C_from_B ∘ B_from_A
(colmap/geometry/rigid3.h is not among the sources): rotations compose by the
quaternion product and the translation is c_from_b applied to the translation
of b_from_a. -/
def rigidCompose (c_from_b b_from_a : Rigid3 K) : Rigid3 K :=
  ⟨c_from_b.rotation.mul b_from_a.rotation,
   eigenRotate c_from_b.rotation b_from_a.translation + c_from_b.translation⟩

/-- Modelled from the spec: a camera-model collaborator (colmap/sensor/models.h is not
among the sources).  A model is identified by a closed enumerated tag, declares a
fixed parameter count, and projects a point given in the camera frame to a pixel. -/
structure CameraModel (K : Type) where
  model_id : ℕ
  num_params : ℕ
  imgFromCam : List K → K → K → K → K × K

/-- Modelled from the spec: the pinhole camera model with parameters
(focal length, principal point x, principal point y), projecting
(x, y, z) to (f x / z + cx, f y / z + cy). -/
def simplePinholeModel : CameraModel K :=
  ⟨0, 3, fun params x y z =>
    let f := params.getD 0 0
    let cx := params.getD 1 0
    let cy := params.getD 2 0
    (f * (x / z) + cx, f * (y / z) + cy)⟩

/-- Standard bundle adjustment cost functor for variable camera pose,
calibration, and point parameters (captures the observation). -/
structure ReprojErrorCostFunctor (K : Type) where
  observed_x : K
  observed_y : K

/-- Constructor of ReprojErrorCostFunctor from the observed pixel. -/
def ReprojErrorCostFunctor.mk' (point2D : K × K) : ReprojErrorCostFunctor K :=
  ⟨point2D.1, point2D.2⟩

/-- Evaluation of ReprojErrorCostFunctor (operator()): rotate and translate the
point into the camera frame, project with the camera model, subtract the
observation; returns the residual 2-vector and the success flag. -/
def ReprojErrorCostFunctor.eval (f : ReprojErrorCostFunctor K) (cam : CameraModel K)
    (cam_from_world_rotation : Quat K) (cam_from_world_translation : V3 K)
    (point3D : V3 K) (camera_params : List K) : (K × K) × Bool :=
  let point3D_in_cam :=
    eigenRotate cam_from_world_rotation point3D + cam_from_world_translation
  let uv := cam.imgFromCam camera_params point3D_in_cam.x point3D_in_cam.y point3D_in_cam.z
  ((uv.1 - f.observed_x, uv.2 - f.observed_y), true)

/-- Bundle adjustment cost functor for variable calibration and point
parameters and fixed camera pose. -/
structure ReprojErrorConstantPoseCostFunctor (K : Type) where
  cam_from_world : Rigid3 K
  reproj_cost : ReprojErrorCostFunctor K

/-- Constructor of ReprojErrorConstantPoseCostFunctor from the fixed pose and
the observed pixel. -/
def ReprojErrorConstantPoseCostFunctor.mk' (cam_from_world : Rigid3 K) (point2D : K × K) :
    ReprojErrorConstantPoseCostFunctor K :=
  ⟨cam_from_world, ReprojErrorCostFunctor.mk' point2D⟩

/-- Evaluation of ReprojErrorConstantPoseCostFunctor (operator()): delegates to
the free-pose functor with the stored pose substituted. -/
def ReprojErrorConstantPoseCostFunctor.eval (f : ReprojErrorConstantPoseCostFunctor K)
    (cam : CameraModel K) (point3D : V3 K) (camera_params : List K) : (K × K) × Bool :=
  f.reproj_cost.eval cam f.cam_from_world.rotation f.cam_from_world.translation point3D
    camera_params

/-- Bundle adjustment cost functor for variable camera pose and calibration
parameters and fixed point. -/
structure ReprojErrorConstantPoint3DCostFunctor (K : Type) where
  point3D : V3 K
  reproj_cost : ReprojErrorCostFunctor K

/-- Constructor of ReprojErrorConstantPoint3DCostFunctor from the observed
pixel and the fixed point. -/
def ReprojErrorConstantPoint3DCostFunctor.mk' (point2D : K × K) (point3D : V3 K) :
    ReprojErrorConstantPoint3DCostFunctor K :=
  ⟨point3D, ReprojErrorCostFunctor.mk' point2D⟩

/-- Evaluation of ReprojErrorConstantPoint3DCostFunctor (operator()): delegates
to the free-pose functor with the stored point substituted. -/
def ReprojErrorConstantPoint3DCostFunctor.eval (f : ReprojErrorConstantPoint3DCostFunctor K)
    (cam : CameraModel K) (cam_from_world_rotation : Quat K)
    (cam_from_world_translation : V3 K) (camera_params : List K) : (K × K) × Bool :=
  f.reproj_cost.eval cam cam_from_world_rotation cam_from_world_translation f.point3D
    camera_params

/-- Rig bundle adjustment cost functor: the point is first taken into the rig
frame and then into the camera frame within the rig. -/
structure RigReprojErrorCostFunctor (K : Type) where
  observed_x : K
  observed_y : K

/-- Constructor of RigReprojErrorCostFunctor from the observed pixel. -/
def RigReprojErrorCostFunctor.mk' (point2D : K × K) : RigReprojErrorCostFunctor K :=
  ⟨point2D.1, point2D.2⟩

/-- Evaluation of RigReprojErrorCostFunctor (operator()). -/
def RigReprojErrorCostFunctor.eval (f : RigReprojErrorCostFunctor K) (cam : CameraModel K)
    (cam_from_rig_rotation : Quat K) (cam_from_rig_translation : V3 K)
    (rig_from_world_rotation : Quat K) (rig_from_world_translation : V3 K)
    (point3D : V3 K) (camera_params : List K) : (K × K) × Bool :=
  let point3D_in_cam :=
    eigenRotate cam_from_rig_rotation
        (eigenRotate rig_from_world_rotation point3D + rig_from_world_translation) +
      cam_from_rig_translation
  let uv := cam.imgFromCam camera_params point3D_in_cam.x point3D_in_cam.y point3D_in_cam.z
  ((uv.1 - f.observed_x, uv.2 - f.observed_y), true)

/-- Rig bundle adjustment cost functor with fixed rig extrinsics. -/
structure RigReprojErrorConstantRigCostFunctor (K : Type) where
  cam_from_rig : Rigid3 K
  reproj_cost : RigReprojErrorCostFunctor K

/-- Constructor of RigReprojErrorConstantRigCostFunctor from the fixed
extrinsic and the observed pixel. -/
def RigReprojErrorConstantRigCostFunctor.mk' (cam_from_rig : Rigid3 K) (point2D : K × K) :
    RigReprojErrorConstantRigCostFunctor K :=
  ⟨cam_from_rig, RigReprojErrorCostFunctor.mk' point2D⟩

/-- Evaluation of RigReprojErrorConstantRigCostFunctor (operator()): delegates
to the rig functor with the stored extrinsic substituted. -/
def RigReprojErrorConstantRigCostFunctor.eval (f : RigReprojErrorConstantRigCostFunctor K)
    (cam : CameraModel K) (rig_from_world_rotation : Quat K)
    (rig_from_world_translation : V3 K) (point3D : V3 K) (camera_params : List K) :
    (K × K) × Bool :=
  f.reproj_cost.eval cam f.cam_from_rig.rotation f.cam_from_rig.translation
    rig_from_world_rotation rig_from_world_translation point3D camera_params

/-- Cost functor for refining two-view geometry based on the Sampson error
(captures the normalized-plane correspondence pair). -/
structure SampsonErrorCostFunctor (K : Type) where
  x1 : K
  y1 : K
  x2 : K
  y2 : K

/-- Constructor of SampsonErrorCostFunctor from the two correspondences. -/
def SampsonErrorCostFunctor.mk' (p1 p2 : K × K) : SampsonErrorCostFunctor K :=
  ⟨p1.1, p1.2, p2.1, p2.2⟩

/-- Evaluation of SampsonErrorCostFunctor (operator()): builds the essential
matrix E from the cross-product matrix of the translation and the rotation
matrix, and divides the squared epipolar residual by the Sampson denominator;
the division is unguarded. -/
def SampsonErrorCostFunctor.eval (f : SampsonErrorCostFunctor K) (q : Quat K) (t : V3 K) :
    K × Bool :=
  let R := q.toRotationMatrix
  let t_x : M3 K := ⟨0, -t.z, t.y, t.z, 0, -t.x, -t.y, t.x, 0⟩
  let E := t_x.mul R
  let x1_h : V3 K := ⟨f.x1, f.y1, 1⟩
  let x2_h : V3 K := ⟨f.x2, f.y2, 1⟩
  let Ex1 := E.mulV3 x1_h
  let Etx2 := E.transpose.mulV3 x2_h
  let x2tEx1 := x2_h.dot Ex1
  (x2tEx1 * x2tEx1 /
      (Ex1.x * Ex1.x + Ex1.y * Ex1.y + Etx2.x * Etx2.x + Etx2.y * Etx2.y),
    true)

/-- The lower-triangular Cholesky factor of a positive-definite real matrix,
obtained from the Mathlib LDL decomposition by scaling the columns of the lower
factor with the square roots of the diagonal entries; this embeds the factor
computed by Eigen llt() (matrixL), which the source transposes. -/
noncomputable def cholFactorL {n : Type} [Fintype n] [LinearOrder n]
    [LocallyFiniteOrderBot n] {S : Matrix n n ℝ} (hS : S.PosDef) :
    Matrix n n ℝ :=
  LDL.lower hS * Matrix.diagonal fun i => Real.sqrt (LDL.diagEntries hS i)

/-- SqrtInformation from the source: the transpose of the lower Cholesky factor
of the inverted covariance (covariance.inverse().llt().matrixL().transpose()). -/
noncomputable def SqrtInformation {n : Type} [Fintype n] [LinearOrder n]
    [LocallyFiniteOrderBot n] [DecidableEq n] (covariance : Matrix n n ℝ)
    (hcov : covariance.PosDef) : Matrix n n ℝ :=
  (cholFactorL hcov.inv).transpose

/-- Modelled from ceres, an external collaborator of the source: the
two-argument arctangent used by QuaternionToAngleAxis. -/
noncomputable def atan2 (y x : ℝ) : ℝ :=
  if 0 < x then Real.arctan (y / x)
  else if x < 0 then
    (if 0 ≤ y then Real.arctan (y / x) + Real.pi else Real.arctan (y / x) - Real.pi)
  else if 0 < y then Real.pi / 2
  else if y < 0 then -(Real.pi / 2)
  else 0

/-- Modelled from ceres, an external collaborator of the source:
QuaternionToAngleAxis on a quaternion given in (w, x, y, z) order; the spec
calls this the angle-axis logarithm.  For a nonzero vector part the angle is
2 atan2(sin, cos) (reflected for negative cosine) and the axis is the vector
part scaled by angle over sine; for a zero vector part the scale is exactly 2. -/
noncomputable def QuaternionToAngleAxis (q0 q1 q2 q3 : ℝ) : V3 ℝ :=
  let sin_squared_theta := q1 * q1 + q2 * q2 + q3 * q3
  if 0 < sin_squared_theta then
    let sin_theta := Real.sqrt sin_squared_theta
    let cos_theta := q0
    let two_theta :=
      2 * (if cos_theta < 0 then atan2 (-sin_theta) (-cos_theta) else atan2 sin_theta cos_theta)
    let k := two_theta / sin_theta
    ⟨q1 * k, q2 * k, q3 * k⟩
  else
    ⟨q1 * 2, q2 * 2, q3 * 2⟩

/-- EigenQuaternionToAngleAxis from the source: reorders the Eigen coefficients
(x, y, z, w) into ceres order (w, x, y, z) and converts to angle-axis. -/
noncomputable def EigenQuaternionToAngleAxis (q : Quat ℝ) : V3 ℝ :=
  QuaternionToAngleAxis q.w q.x q.y q.z

/-- 6-DoF error on the absolute camera pose; stored fields are the inverted
prior pose and the square-root information of the prior covariance. -/
structure AbsolutePosePriorCostFunctor where
  world_from_cam_prior : Rigid3 ℝ
  cam_sqrt_info_from_world_prior : Matrix (Fin 6) (Fin 6) ℝ

/-- Constructor of AbsolutePosePriorCostFunctor: inverts the prior pose and
takes the square-root information of the prior covariance. -/
noncomputable def AbsolutePosePriorCostFunctor.mk' (cam_from_world_prior : Rigid3 ℝ)
    (cam_cov_from_world_prior : Matrix (Fin 6) (Fin 6) ℝ)
    (hcov : cam_cov_from_world_prior.PosDef) : AbsolutePosePriorCostFunctor :=
  ⟨RigidInverse cam_from_world_prior, SqrtInformation cam_cov_from_world_prior hcov⟩

/-- Evaluation of AbsolutePosePriorCostFunctor (operator()): the rotation block
is the angle-axis of the estimated rotation composed with the inverted prior
rotation, the translation block is the estimated translation plus the estimated
rotation applied to the inverted-prior translation; the stacked 6-vector is
whitened by the stored square-root information. -/
noncomputable def AbsolutePosePriorCostFunctor.eval (f : AbsolutePosePriorCostFunctor)
    (cam_from_world_rotation : Quat ℝ) (cam_from_world_translation : V3 ℝ) :
    (Fin 6 → ℝ) × Bool :=
  let param_from_prior_rotation :=
    cam_from_world_rotation.mul f.world_from_cam_prior.rotation
  let aa := EigenQuaternionToAngleAxis param_from_prior_rotation
  let param_from_prior_translation :=
    cam_from_world_translation +
      eigenRotate cam_from_world_rotation f.world_from_cam_prior.translation
  (f.cam_sqrt_info_from_world_prior.mulVec
      ![aa.x, aa.y, aa.z, param_from_prior_translation.x, param_from_prior_translation.y,
        param_from_prior_translation.z],
    true)

/-- 3-DoF error on the camera position in the world coordinate frame; stored
fields are the prior position and the square-root information of its
covariance. -/
structure AbsolutePosePositionPriorCostFunctor where
  position_in_world_prior : V3 ℝ
  position_sqrt_info_in_world_prior : Matrix (Fin 3) (Fin 3) ℝ

/-- Evaluation of AbsolutePosePositionPriorCostFunctor (operator()): the
residual is the prior position plus the inverted estimated rotation applied to
the estimated translation, whitened by the stored square-root information. -/
noncomputable def AbsolutePosePositionPriorCostFunctor.eval
    (f : AbsolutePosePositionPriorCostFunctor) (cam_from_world_rotation : Quat ℝ)
    (cam_from_world_translation : V3 ℝ) : (Fin 3 → ℝ) × Bool :=
  let r := f.position_in_world_prior +
    eigenRotate cam_from_world_rotation.inverse cam_from_world_translation
  (f.position_sqrt_info_in_world_prior.mulVec ![r.x, r.y, r.z], true)

/-- 6-DoF error between two absolute camera poses based on a prior on their
relative pose; stored fields are the inverted prior and the square-root
information of the prior covariance. -/
structure RelativePosePriorCostFunctor where
  j_from_i_prior : Rigid3 ℝ
  i_sqrt_info_from_j_prior : Matrix (Fin 6) (Fin 6) ℝ

/-- Constructor of RelativePosePriorCostFunctor: inverts the i-from-j prior and
takes the square-root information of the prior covariance. -/
noncomputable def RelativePosePriorCostFunctor.mk' (i_from_j_prior : Rigid3 ℝ)
    (i_cov_from_j_prior : Matrix (Fin 6) (Fin 6) ℝ) (hcov : i_cov_from_j_prior.PosDef) :
    RelativePosePriorCostFunctor :=
  ⟨RigidInverse i_from_j_prior, SqrtInformation i_cov_from_j_prior hcov⟩

/-- Evaluation of RelativePosePriorCostFunctor (operator()): the rotation block
is the angle-axis of i-from-j composed with the stored j-from-i prior rotation;
the translation block is the i translation plus i-from-j applied to the stored
prior translation minus the j translation; the stacked 6-vector is whitened by
the stored square-root information. -/
noncomputable def RelativePosePriorCostFunctor.eval (f : RelativePosePriorCostFunctor)
    (i_from_world_rotation : Quat ℝ) (i_from_world_translation : V3 ℝ)
    (j_from_world_rotation : Quat ℝ) (j_from_world_translation : V3 ℝ) :
    (Fin 6 → ℝ) × Bool :=
  let i_from_j_rotation := i_from_world_rotation.mul j_from_world_rotation.inverse
  let param_from_prior_rotation := i_from_j_rotation.mul f.j_from_i_prior.rotation
  let aa := EigenQuaternionToAngleAxis param_from_prior_rotation
  let j_from_i_prior_translation := f.j_from_i_prior.translation - j_from_world_translation
  let param_from_prior_translation :=
    i_from_world_translation + eigenRotate i_from_j_rotation j_from_i_prior_translation
  (f.i_sqrt_info_from_j_prior.mulVec
      ![aa.x, aa.y, aa.z, param_from_prior_translation.x, param_from_prior_translation.y,
        param_from_prior_translation.z],
    true)

/-- Cost functor for aligning one 3D point with a reference 3D point with
covariance; stored fields are the reference point and the square-root
information of its covariance. -/
structure Point3DAlignmentCostFunctor where
  point_in_b_prior : V3 ℝ
  point_sqrt_info_in_b_prior : Matrix (Fin 3) (Fin 3) ℝ

/-- Evaluation of Point3DAlignmentCostFunctor (operator()): applies the
similarity transform (rotation, scale, translation) to the point and subtracts
the reference point, whitened by the stored square-root information. -/
noncomputable def Point3DAlignmentCostFunctor.eval (f : Point3DAlignmentCostFunctor)
    (point_in_a : V3 ℝ) (b_from_a_rotation : Quat ℝ) (b_from_a_translation : V3 ℝ)
    (b_from_a_scale : ℝ) : (Fin 3 → ℝ) × Bool :=
  let point_in_b :=
    (eigenRotate b_from_a_rotation point_in_a).scale b_from_a_scale + b_from_a_translation
  let r := point_in_b - f.point_in_b_prior
  (f.point_sqrt_info_in_b_prior.mulVec ![r.x, r.y, r.z], true)

/-- A solver-facing cost function over the scalar K with m flattened parameter
entries and n residual components: a value evaluation and a full
derivative-matrix (Jacobian) evaluation. -/
structure CostFunction (K : Type) (m n : ℕ) where
  evalRes : (Fin m → K) → Fin n → K
  evalJac : (Fin m → K) → Fin n → Fin m → K

/-- LinearCostFunction from the source: one residual, one parameter block of
size one; Evaluate writes the parameter scaled by s, and the Jacobian entry is
s. -/
def LinearCostFunction (s : K) : CostFunction K 1 1 :=
  ⟨fun p _ => p 0 * s, fun _ _ _ => s⟩

/-- Modelled from the spec: ceres ConditionedCostFunction, an external
collaborator of the source.  It composes a wrapped cost function with one
single-residual conditioner per residual component: residual i becomes the
i-th conditioner applied to residual i, and by the chain rule every derivative
entry in row i is multiplied by the conditioner's derivative at that
residual. -/
def ConditionedCostFunction {m n : ℕ} (wrapped : CostFunction K m n)
    (conditioners : Fin n → CostFunction K 1 1) : CostFunction K m n :=
  ⟨fun p i => (conditioners i).evalRes (fun _ => wrapped.evalRes p i) 0,
   fun p i j =>
     (conditioners i).evalJac (fun _ => wrapped.evalRes p i) 0 0 * wrapped.evalJac p i j⟩

/-- Create of IsotropicNoiseCostFunctorWrapper from the source: requires a
positive standard deviation (THROW_CHECK_GT, a fatal construction-time
precondition, taken as a hypothesis), and conditions the wrapped cost function
with one LinearCostFunction of scale 1 / stddev per residual component. -/
def IsotropicNoiseCostFunctorWrapper.create {K : Type} [LinearOrderedField K] {m n : ℕ}
    (stddev : K) (h : 0 < stddev) (wrapped : CostFunction K m n) : CostFunction K m n :=
  ConditionedCostFunction wrapped fun _ => LinearCostFunction (1 / stddev)

/-- A constructed camera cost-function handle: the declared residual dimension,
the declared parameter block dimensions, the selected camera-model
specialization and the constructed functor. -/
structure CameraCostHandle (K : Type) where
  num_residuals : ℕ
  parameter_block_dims : List ℕ
  model : CameraModel K
  functor : ReprojErrorCostFunctor K

/-- Modelled from the spec: CreateCameraCostFunction, the camera-model
dispatcher; the macro-expanded switch cases (CAMERA_MODEL_SWITCH_CASES of
colmap/sensor/models.h) are not among the sources.  Over the closed list of
compiled camera models, the dispatcher selects the specialization whose
model_id equals the runtime identifier and constructs its cost-function handle
(the free-pose reprojection functor with declared dimensions 2 and
4, 3, 3, num_params), forwarding the constructor argument unchanged; an
identifier outside the known set reaches no case and never produces a handle,
modelled as none. -/
def CreateCameraCostFunction (models : List (CameraModel K)) (point2D : K × K)
    (camera_model_id : ℕ) : Option (CameraCostHandle K) :=
  match models.find? fun m => m.model_id == camera_model_id with
  | some m => some ⟨2, [4, 3, 3, m.num_params], m, ReprojErrorCostFunctor.mk' point2D⟩
  | none => none

@[simp] theorem V3.add_x (a b : V3 K) : (a + b).x = a.x + b.x := rfl

@[simp] theorem V3.add_y (a b : V3 K) : (a + b).y = a.y + b.y := rfl

@[simp] theorem V3.add_z (a b : V3 K) : (a + b).z = a.z + b.z := rfl

@[simp] theorem V3.sub_x (a b : V3 K) : (a - b).x = a.x - b.x := rfl

@[simp] theorem V3.sub_y (a b : V3 K) : (a - b).y = a.y - b.y := rfl

@[simp] theorem V3.sub_z (a b : V3 K) : (a - b).z = a.z - b.z := rfl

@[simp] theorem V3.neg_x (a : V3 K) : (-a).x = -a.x := rfl

@[simp] theorem V3.neg_y (a : V3 K) : (-a).y = -a.y := rfl

@[simp] theorem V3.neg_z (a : V3 K) : (-a).z = -a.z := rfl

@[simp] theorem V3.zero_x : (0 : V3 K).x = 0 := rfl

@[simp] theorem V3.zero_y : (0 : V3 K).y = 0 := rfl

@[simp] theorem V3.zero_z : (0 : V3 K).z = 0 := rfl

theorem eigenRotate_eq_sandwich {q : Quat K} (h : q.normSq = 1) (v : V3 K) :
    eigenRotate q v = quatSandwich q v := by
  have h' : q.x * q.x + q.y * q.y + q.z * q.z + q.w * q.w = 1 := h
  refine V3.ext ?_ ?_ ?_
  · simp only [eigenRotate, quatSandwich, Quat.mul, Quat.conj, Quat.vec, V3.cross, V3.scale,
      V3.add_x, V3.add_y, V3.add_z]
    linear_combination (-v.x) * h'
  · simp only [eigenRotate, quatSandwich, Quat.mul, Quat.conj, Quat.vec, V3.cross, V3.scale,
      V3.add_x, V3.add_y, V3.add_z]
    linear_combination (-v.y) * h'
  · simp only [eigenRotate, quatSandwich, Quat.mul, Quat.conj, Quat.vec, V3.cross, V3.scale,
      V3.add_x, V3.add_y, V3.add_z]
    linear_combination (-v.z) * h'

theorem quatSandwich_mul (q p : Quat K) (v : V3 K) :
    quatSandwich q (quatSandwich p v) = quatSandwich (q.mul p) v := by
  ext <;>
    simp only [quatSandwich, Quat.mul, Quat.conj, Quat.vec] <;> ring

theorem quatSandwich_scalar (s : K) (v : V3 K) :
    quatSandwich ⟨0, 0, 0, s⟩ v = v.scale (s * s) := by
  ext <;> simp only [quatSandwich, Quat.mul, Quat.conj, Quat.vec, V3.scale] <;> ring

theorem Quat.mul_conj_self (q : Quat K) : q.mul q.conj = ⟨0, 0, 0, q.normSq⟩ := by
  ext <;> simp only [Quat.mul, Quat.conj, Quat.normSq] <;> ring

theorem Quat.normSq_conj (q : Quat K) : q.conj.normSq = q.normSq := by
  simp only [Quat.conj, Quat.normSq]; ring

theorem Quat.normSq_mul (q p : Quat K) : (q.mul p).normSq = q.normSq * p.normSq := by
  simp only [Quat.mul, Quat.normSq]; ring

theorem Quat.inverse_eq_conj {q : Quat K} (h : q.normSq = 1) : q.inverse = q.conj := by
  ext <;> simp [Quat.inverse, Quat.conj, h]

theorem V3.scale_one (v : V3 K) : v.scale 1 = v := by
  ext <;> simp [V3.scale]

theorem eigenRotate_add (q : Quat K) (v w : V3 K) :
    eigenRotate q (v + w) = eigenRotate q v + eigenRotate q w := by
  ext <;> simp only [eigenRotate, Quat.vec, V3.cross, V3.scale, V3.add_x, V3.add_y, V3.add_z] <;>
    ring

theorem eigenRotate_neg (q : Quat K) (v : V3 K) :
    eigenRotate q (-v) = -eigenRotate q v := by
  ext <;>
    simp only [eigenRotate, Quat.vec, V3.cross, V3.scale, V3.add_x, V3.add_y, V3.add_z,
      V3.neg_x, V3.neg_y, V3.neg_z] <;> ring

theorem eigenRotate_sub (q : Quat K) (v w : V3 K) :
    eigenRotate q (v - w) = eigenRotate q v - eigenRotate q w := by
  ext <;> simp only [eigenRotate, Quat.vec, V3.cross, V3.scale, V3.add_x, V3.add_y, V3.add_z,
    V3.sub_x, V3.sub_y, V3.sub_z] <;> ring

theorem eigenRotate_one (v : V3 K) : eigenRotate (quatOne : Quat K) v = v := by
  ext <;> simp [eigenRotate, quatOne, Quat.vec, V3.cross, V3.scale]

theorem eigenRotate_comp {q p : Quat K} (hq : q.normSq = 1) (hp : p.normSq = 1) (v : V3 K) :
    eigenRotate q (eigenRotate p v) = eigenRotate (q.mul p) v := by
  rw [eigenRotate_eq_sandwich hq, eigenRotate_eq_sandwich hp, quatSandwich_mul,
    ← eigenRotate_eq_sandwich (by rw [Quat.normSq_mul, hq, hp, one_mul])]

theorem eigenRotate_conj_cancel {q : Quat K} (h : q.normSq = 1) (v : V3 K) :
    eigenRotate q (eigenRotate q.conj v) = v := by
  rw [eigenRotate_comp h (by rw [Quat.normSq_conj, h]), Quat.mul_conj_self, h]
  exact eigenRotate_one v

theorem toRotationMatrix_mulV3 (q : Quat K) (v : V3 K) :
    q.toRotationMatrix.mulV3 v = eigenRotate q v := by
  ext <;>
    simp only [Quat.toRotationMatrix, M3.mulV3, eigenRotate, Quat.vec, V3.cross, V3.scale,
      V3.add_x, V3.add_y, V3.add_z] <;> ring

theorem V3.add_zero (v : V3 K) : v + 0 = v := by
  ext <;> simp

theorem M3.toMatrix_mul (a b : M3 K) : (a.mul b).toMatrix = a.toMatrix * b.toMatrix := by
  ext i j
  fin_cases i <;> fin_cases j <;>
    simp [M3.mul, M3.toMatrix, Matrix.mul_apply, Fin.sum_univ_three]

theorem M3.toMatrix_transpose (a : M3 K) : a.transpose.toMatrix = a.toMatrix.transpose := by
  ext i j
  fin_cases i <;> fin_cases j <;> simp [M3.transpose, M3.toMatrix]

theorem M3.toMatrix_mulVec (a : M3 K) (v : V3 K) :
    a.toMatrix.mulVec v.toFun = (a.mulV3 v).toFun := by
  funext i
  fin_cases i <;>
    simp [M3.toMatrix, M3.mulV3, V3.toFun, Matrix.mulVec, Matrix.dotProduct, Fin.sum_univ_three]

theorem V3.dotProduct_toFun (a b : V3 K) :
    Matrix.dotProduct a.toFun b.toFun = a.dot b := by
  simp [V3.toFun, V3.dot, Matrix.dotProduct, Fin.sum_univ_three]

/-- C2: the free-pose reprojection residual is the camera model's projection of
the point rotated by the rotation matrix of the pose quaternion and shifted by
the translation, minus the observed pixel; and it is the zero 2-vector in the
exact configuration of identity pose, point (0, 0, 5), pinhole model with focal
length 1 and principal point 0, observed pixel (0, 0). -/
theorem C2_reproj_error_free_pose (K : Type) [Field K] :
    (∀ (cam : CameraModel K) (f : ReprojErrorCostFunctor K) (q : Quat K) (t X : V3 K)
        (params : List K),
      (f.eval cam q t X params).1 =
        (let pc := q.toRotationMatrix.mulV3 X + t
         ((cam.imgFromCam params pc.x pc.y pc.z).1 - f.observed_x,
          (cam.imgFromCam params pc.x pc.y pc.z).2 - f.observed_y))) ∧
    ((ReprojErrorCostFunctor.mk' ((0 : K), 0)).eval simplePinholeModel quatOne 0
        ⟨0, 0, 5⟩ [1, 0, 0]).1 = (0, 0) := by
  constructor
  · intro cam f q t X params
    simp only [ReprojErrorCostFunctor.eval, toRotationMatrix_mulV3]
  · simp [ReprojErrorCostFunctor.eval, ReprojErrorCostFunctor.mk', simplePinholeModel,
      eigenRotate_one, V3.add_zero]

/-- C3: the fixed-pose reprojection functor delegates to the free-pose functor:
its residual coincides with the free-pose residual at the stored pose with the
same point, camera parameters and observation. -/
theorem C3_constant_pose_refines_free_pose (K : Type) [Field K] :
    ∀ (cam : CameraModel K) (pose : Rigid3 K) (obs : K × K) (X : V3 K) (params : List K),
      (ReprojErrorConstantPoseCostFunctor.mk' pose obs).eval cam X params =
        (ReprojErrorCostFunctor.mk' obs).eval cam pose.rotation pose.translation X params :=
  fun _ _ _ _ _ => rfl

/-- C4: the rig reprojection residual with the identity camera-from-rig
transform (identity rotation, zero translation) equals the free-pose
reprojection residual with rig_from_world as the camera pose. -/
theorem C4_rig_identity_extrinsic (K : Type) [Field K] :
    ∀ (cam : CameraModel K) (obs : K × K) (rig_q : Quat K) (rig_t X : V3 K)
      (params : List K),
      (RigReprojErrorCostFunctor.mk' obs).eval cam quatOne 0 rig_q rig_t X params =
        (ReprojErrorCostFunctor.mk' obs).eval cam rig_q rig_t X params := by
  intro cam obs rig_q rig_t X params
  simp only [RigReprojErrorCostFunctor.eval, ReprojErrorCostFunctor.eval,
    RigReprojErrorCostFunctor.mk', ReprojErrorCostFunctor.mk', eigenRotate_one, V3.add_zero]

/-- C5: the Sampson residual equals (x2ᵀ E x1)² divided by the sum of the squares
of the first two components of E x1 and of Eᵀ x2, where E = [t]x R is the
essential matrix of the parameters and x1, x2 are the homogeneous
correspondences; and the residual is zero whenever x2ᵀ E x1 = 0 with nonzero
denominator. -/
theorem C5_sampson_error (K : Type) [Field K] :
    (∀ (f : SampsonErrorCostFunctor K) (q : Quat K) (t : V3 K),
      (f.eval q t).1 =
        (let E := !![0, -t.z, t.y; t.z, 0, -t.x; -t.y, t.x, 0] * q.toRotationMatrix.toMatrix
         Matrix.dotProduct ![f.x2, f.y2, 1] (E.mulVec ![f.x1, f.y1, 1]) ^ 2 /
           (E.mulVec ![f.x1, f.y1, 1] 0 ^ 2 + E.mulVec ![f.x1, f.y1, 1] 1 ^ 2 +
             E.transpose.mulVec ![f.x2, f.y2, 1] 0 ^ 2 +
             E.transpose.mulVec ![f.x2, f.y2, 1] 1 ^ 2))) ∧
    (∀ (f : SampsonErrorCostFunctor K) (q : Quat K) (t : V3 K),
      Matrix.dotProduct ![f.x2, f.y2, 1]
          ((!![0, -t.z, t.y; t.z, 0, -t.x; -t.y, t.x, 0] *
              q.toRotationMatrix.toMatrix).mulVec ![f.x1, f.y1, 1]) = 0 →
      (let E := !![0, -t.z, t.y; t.z, 0, -t.x; -t.y, t.x, 0] * q.toRotationMatrix.toMatrix
       E.mulVec ![f.x1, f.y1, 1] 0 ^ 2 + E.mulVec ![f.x1, f.y1, 1] 1 ^ 2 +
           E.transpose.mulVec ![f.x2, f.y2, 1] 0 ^ 2 +
           E.transpose.mulVec ![f.x2, f.y2, 1] 1 ^ 2) ≠ 0 →
      (f.eval q t).1 = 0) := by
  constructor
  · intro f q t
    have h1 : (!![0, -t.z, t.y; t.z, 0, -t.x; -t.y, t.x, 0] * q.toRotationMatrix.toMatrix)
        = ((⟨0, -t.z, t.y, t.z, 0, -t.x, -t.y, t.x, 0⟩ : M3 K).mul q.toRotationMatrix).toMatrix :=
      (M3.toMatrix_mul (⟨0, -t.z, t.y, t.z, 0, -t.x, -t.y, t.x, 0⟩ : M3 K)
        q.toRotationMatrix).symm
    simp only [h1, ← M3.toMatrix_transpose,
      show (![f.x1, f.y1, 1] : Fin 3 → K) = (V3.mk f.x1 f.y1 1).toFun from rfl,
      show (![f.x2, f.y2, 1] : Fin 3 → K) = (V3.mk f.x2 f.y2 1).toFun from rfl,
      M3.toMatrix_mulVec, V3.dotProduct_toFun]
    simp only [SampsonErrorCostFunctor.eval, V3.toFun, Matrix.cons_val_zero,
      Matrix.cons_val_one, Matrix.head_cons]
    ring
  · intro f q t hnum hden
    have h1 : (!![0, -t.z, t.y; t.z, 0, -t.x; -t.y, t.x, 0] * q.toRotationMatrix.toMatrix)
        = ((⟨0, -t.z, t.y, t.z, 0, -t.x, -t.y, t.x, 0⟩ : M3 K).mul q.toRotationMatrix).toMatrix :=
      (M3.toMatrix_mul (⟨0, -t.z, t.y, t.z, 0, -t.x, -t.y, t.x, 0⟩ : M3 K)
        q.toRotationMatrix).symm
    rw [h1,
      show (![f.x1, f.y1, 1] : Fin 3 → K) = (V3.mk f.x1 f.y1 1).toFun from rfl,
      show (![f.x2, f.y2, 1] : Fin 3 → K) = (V3.mk f.x2 f.y2 1).toFun from rfl,
      M3.toMatrix_mulVec, V3.dotProduct_toFun] at hnum
    simp only [SampsonErrorCostFunctor.eval]
    rw [hnum]
    simp

/-- Witness for C5 at the identity rotation with translation (1, 0, 0) and
both correspondences at the origin: the epipolar product is zero, the
denominator is nonzero, and the residual evaluates to zero. -/
theorem C5_sampson_error_witness :
    ((SampsonErrorCostFunctor.mk' ((0 : ℚ), 0) (0, 0)).eval quatOne ⟨1, 0, 0⟩).1 = 0 :=
  (C5_sampson_error ℚ).2 (SampsonErrorCostFunctor.mk' (0, 0) (0, 0)) quatOne ⟨1, 0, 0⟩
    (by norm_num [Matrix.mulVec, Matrix.dotProduct, Fin.sum_univ_three, Matrix.mul_apply,
      Quat.toRotationMatrix, quatOne, SampsonErrorCostFunctor.mk', M3.toMatrix,
      Matrix.cons_val_zero, Matrix.cons_val_one, Matrix.cons_val_two, Matrix.head_cons,
      Matrix.vecTail, Matrix.vecHead, Matrix.vecMul, Matrix.transpose_apply])
    (by norm_num [Matrix.mulVec, Matrix.dotProduct, Fin.sum_univ_three, Matrix.mul_apply,
      Quat.toRotationMatrix, quatOne, SampsonErrorCostFunctor.mk', M3.toMatrix,
      Matrix.cons_val_zero, Matrix.cons_val_one, Matrix.cons_val_two, Matrix.head_cons,
      Matrix.vecTail, Matrix.vecHead, Matrix.vecMul, Matrix.transpose_apply])

theorem V3.add_neg_self (v : V3 K) : v + -v = 0 := by
  ext <;> simp

theorem LDL_diagEntries_pos {n : Type} [Fintype n] [LinearOrder n]
    [LocallyFiniteOrderBot n] {S : Matrix n n ℝ} (hS : S.PosDef)
    (i : n) : 0 < LDL.diagEntries hS i := by
  haveI := LDL.invertibleLowerInv hS
  have hdet : IsUnit (LDL.lowerInv hS).det := Matrix.isUnit_det_of_invertible _
  have hrow : LDL.lowerInv hS i ≠ 0 := by
    intro h
    rw [Matrix.det_eq_zero_of_row_eq_zero i fun j => congrFun h j] at hdet
    simp at hdet
  have h2 := hS.2 (star (LDL.lowerInv hS i)) (by simpa using hrow)
  simpa [LDL.diagEntries, EuclideanSpace.inner_piLp_equiv_symm] using h2

theorem cholFactorL_mul_transpose {n : Type} [Fintype n] [LinearOrder n]
    [LocallyFiniteOrderBot n] {S : Matrix n n ℝ} (hS : S.PosDef) :
    cholFactorL hS * (cholFactorL hS).transpose = S := by
  have hD : (Matrix.diagonal fun i => Real.sqrt (LDL.diagEntries hS i)) *
      Matrix.diagonal (fun i => Real.sqrt (LDL.diagEntries hS i)) = LDL.diag hS := by
    have hsq : (fun i => Real.sqrt (LDL.diagEntries hS i) * Real.sqrt (LDL.diagEntries hS i)) =
        LDL.diagEntries hS := by
      funext i
      exact Real.mul_self_sqrt (LDL_diagEntries_pos hS i).le
    rw [Matrix.diagonal_mul_diagonal, hsq, LDL.diag]
  have hldl := LDL.lower_conj_diag hS
  rw [Matrix.conjTranspose_eq_transpose_of_trivial] at hldl
  rw [cholFactorL, Matrix.transpose_mul, Matrix.diagonal_transpose, Matrix.mul_assoc,
    ← Matrix.mul_assoc (Matrix.diagonal _), hD, ← Matrix.mul_assoc]
  exact hldl

theorem cholFactorL_triangular {n : Type} [Fintype n] [LinearOrder n]
    [LocallyFiniteOrderBot n] {S : Matrix n n ℝ} (hS : S.PosDef) {i j : n}
    (hij : i < j) : cholFactorL hS i j = 0 := by
  haveI := LDL.invertibleLowerInv hS
  rw [cholFactorL, Matrix.mul_diagonal]
  have htri : (LDL.lowerInv hS).BlockTriangular (OrderDual.toDual : n → nᵒᵈ) :=
    fun a b hab => LDL.lowerInv_triangular hS hab
  have hlowtri := Matrix.blockTriangular_inv_of_blockTriangular htri
  have hlow : LDL.lower hS i j = 0 := by
    unfold LDL.lower
    exact hlowtri hij
  rw [hlow, zero_mul]

/-- C1: for a symmetric positive-definite covariance C, SqrtInformation C is an
upper-triangular matrix R (entries below the diagonal vanish) whose
product Rᵀ R equals the inverse of C: it is the two-sided inverse of C,
the Cholesky factorization of the inverse covariance. -/
theorem C1_sqrt_information {n : Type} [Fintype n] [LinearOrder n]
    [LocallyFiniteOrderBot n] [DecidableEq n] (C : Matrix n n ℝ) (hC : C.PosDef) :
    (SqrtInformation C hC).transpose * SqrtInformation C hC * C = 1 ∧
      C * ((SqrtInformation C hC).transpose * SqrtInformation C hC) = 1 ∧
      ∀ i j : n, j < i → SqrtInformation C hC i j = 0 := by
  have hinv : (SqrtInformation C hC).transpose * SqrtInformation C hC = C⁻¹ := by
    rw [SqrtInformation, Matrix.transpose_transpose]
    exact cholFactorL_mul_transpose hC.inv
  have hdet : IsUnit C.det := (Matrix.isUnit_iff_isUnit_det C).mp hC.isUnit
  refine ⟨?_, ?_, ?_⟩
  · rw [hinv]
    exact Matrix.nonsing_inv_mul C hdet
  · rw [hinv]
    exact Matrix.mul_nonsing_inv C hdet
  · intro i j hji
    rw [SqrtInformation, Matrix.transpose_apply]
    exact cholFactorL_triangular hC.inv hji

/-- Witness for C1 at the identity 3-by-3 covariance. -/
theorem C1_sqrt_information_witness :
    (SqrtInformation (1 : Matrix (Fin 3) (Fin 3) ℝ) Matrix.PosDef.one).transpose *
          SqrtInformation 1 Matrix.PosDef.one * 1 = 1 ∧
      (1 : Matrix (Fin 3) (Fin 3) ℝ) *
          ((SqrtInformation (1 : Matrix (Fin 3) (Fin 3) ℝ) Matrix.PosDef.one).transpose *
            SqrtInformation 1 Matrix.PosDef.one) = 1 ∧
      ∀ i j : Fin 3, j < i →
        SqrtInformation (1 : Matrix (Fin 3) (Fin 3) ℝ) Matrix.PosDef.one i j = 0 :=
  C1_sqrt_information 1 Matrix.PosDef.one

theorem angleAxis_no_rotation (w : ℝ) :
    EigenQuaternionToAngleAxis ⟨0, 0, 0, w⟩ = 0 := by
  ext <;> simp [EigenQuaternionToAngleAxis, QuaternionToAngleAxis]

theorem vec6_zero : (![(0 : V3 ℝ).x, (0 : V3 ℝ).y, (0 : V3 ℝ).z, (0 : V3 ℝ).x, (0 : V3 ℝ).y,
    (0 : V3 ℝ).z] : Fin 6 → ℝ) = 0 := by
  funext i
  fin_cases i <;> rfl

/-- C7: with a unit-norm prior rotation and a positive-definite 6-by-6
covariance, the absolute-pose-prior residual is the zero 6-vector when the
estimated pose equals the prior pose exactly; the whitening matrix preserves
the zero vector. -/
theorem C7_absolute_pose_prior_zero (prior : Rigid3 ℝ) (cov : Matrix (Fin 6) (Fin 6) ℝ)
    (hcov : cov.PosDef) (q : Quat ℝ) (t : V3 ℝ) (hunit : prior.rotation.normSq = 1)
    (hq : q = prior.rotation) (ht : t = prior.translation) :
    ((AbsolutePosePriorCostFunctor.mk' prior cov hcov).eval q t).1 = 0 := by
  subst hq ht
  simp only [AbsolutePosePriorCostFunctor.eval, AbsolutePosePriorCostFunctor.mk', RigidInverse,
    Quat.inverse_eq_conj hunit]
  rw [Quat.mul_conj_self, hunit, angleAxis_no_rotation, eigenRotate_conj_cancel hunit,
    V3.add_neg_self, vec6_zero, Matrix.mulVec_zero]

/-- Witness for C7 at the identity prior pose with identity covariance. -/
theorem C7_absolute_pose_prior_zero_witness :
    ((AbsolutePosePriorCostFunctor.mk' ⟨⟨0, 0, 0, 1⟩, ⟨0, 0, 0⟩⟩
        (1 : Matrix (Fin 6) (Fin 6) ℝ) Matrix.PosDef.one).eval ⟨0, 0, 0, 1⟩ ⟨0, 0, 0⟩).1 = 0 :=
  C7_absolute_pose_prior_zero ⟨⟨0, 0, 0, 1⟩, ⟨0, 0, 0⟩⟩ 1 Matrix.PosDef.one
    ⟨0, 0, 0, 1⟩ ⟨0, 0, 0⟩ (by norm_num [Quat.normSq]) rfl rfl

/-- C8: with unit-norm estimated rotations and a positive-definite 6-by-6
covariance, the relative-pose-prior residual is the zero 6-vector whenever
i_from_world composed with the inverse of j_from_world equals the i-from-j
prior supplied at construction exactly. -/
theorem C8_relative_pose_prior_zero (prior : Rigid3 ℝ) (cov : Matrix (Fin 6) (Fin 6) ℝ)
    (hcov : cov.PosDef) (qi : Quat ℝ) (ti : V3 ℝ) (qj : Quat ℝ) (tj : V3 ℝ)
    (hi : qi.normSq = 1) (hj : qj.normSq = 1)
    (hpose : rigidCompose ⟨qi, ti⟩ (RigidInverse ⟨qj, tj⟩) = prior) :
    ((RelativePosePriorCostFunctor.mk' prior cov hcov).eval qi ti qj tj).1 = 0 := by
  have hconj : qj.inverse = qj.conj := Quat.inverse_eq_conj hj
  have hr : prior.rotation = qi.mul qj.conj := by
    rw [← hpose]
    show qi.mul qj.inverse = _
    rw [hconj]
  have hrunit : (qi.mul qj.conj).normSq = 1 := by
    rw [Quat.normSq_mul, Quat.normSq_conj, hi, hj, one_mul]
  have hconjunit : (qj.conj).normSq = 1 := by rw [Quat.normSq_conj, hj]
  have htp : prior.translation = -eigenRotate (qi.mul qj.conj) tj + ti := by
    rw [← hpose]
    show eigenRotate qi (eigenRotate qj.inverse (-tj)) + ti = _
    rw [hconj, eigenRotate_comp hi hconjunit, eigenRotate_neg]
  simp only [RelativePosePriorCostFunctor.eval, RelativePosePriorCostFunctor.mk', RigidInverse,
    hconj, hr, Quat.inverse_eq_conj hrunit]
  rw [Quat.mul_conj_self, hrunit, angleAxis_no_rotation, eigenRotate_sub,
    eigenRotate_conj_cancel hrunit, htp]
  have hB : ti + (-(-eigenRotate (qi.mul qj.conj) tj + ti) -
      eigenRotate (qi.mul qj.conj) tj) = (0 : V3 ℝ) := by
    ext <;> simp
  rw [hB, vec6_zero, Matrix.mulVec_zero]

/-- Witness for C8 at identity poses with identity prior and covariance. -/
theorem C8_relative_pose_prior_zero_witness :
    ((RelativePosePriorCostFunctor.mk'
        (rigidCompose ⟨⟨0, 0, 0, 1⟩, ⟨0, 0, 0⟩⟩ (RigidInverse ⟨⟨0, 0, 0, 1⟩, ⟨0, 0, 0⟩⟩))
        (1 : Matrix (Fin 6) (Fin 6) ℝ) Matrix.PosDef.one).eval
      ⟨0, 0, 0, 1⟩ ⟨0, 0, 0⟩ ⟨0, 0, 0, 1⟩ ⟨0, 0, 0⟩).1 = 0 :=
  C8_relative_pose_prior_zero _ 1 Matrix.PosDef.one ⟨0, 0, 0, 1⟩ ⟨0, 0, 0⟩ ⟨0, 0, 0, 1⟩
    ⟨0, 0, 0⟩ (by norm_num [Quat.normSq]) (by norm_num [Quat.normSq]) rfl

/-- C9: the isotropic-noise decorator keeps the residual dimension (by type)
and scales every residual component and every derivative entry of the wrapped
function by 1 / stddev; with stddev 1 it reproduces the wrapped output exactly,
and with stddev 2 every residual component is exactly half of the unwrapped
residual for the same inputs. -/
theorem C9_isotropic_noise_wrapper (K : Type) [LinearOrderedField K] (m n : ℕ)
    (wrapped : CostFunction K m n) (stddev : K) (h : 0 < stddev) (p : Fin m → K) :
    (∀ i, (IsotropicNoiseCostFunctorWrapper.create stddev h wrapped).evalRes p i =
        1 / stddev * wrapped.evalRes p i) ∧
    (∀ i j, (IsotropicNoiseCostFunctorWrapper.create stddev h wrapped).evalJac p i j =
        1 / stddev * wrapped.evalJac p i j) ∧
    (∀ i, (IsotropicNoiseCostFunctorWrapper.create 1 one_pos wrapped).evalRes p i =
        wrapped.evalRes p i) ∧
    (∀ i, (IsotropicNoiseCostFunctorWrapper.create 2 two_pos wrapped).evalRes p i =
        wrapped.evalRes p i / 2) := by
  refine ⟨fun i => ?_, fun i j => ?_, fun i => ?_, fun i => ?_⟩ <;>
    simp [IsotropicNoiseCostFunctorWrapper.create, ConditionedCostFunction,
      LinearCostFunction] <;>
    ring

/-- Witness for C9 with the linear cost function of slope 3 wrapped at
standard deviation 2 and parameter value 5. -/
theorem C9_isotropic_noise_wrapper_witness :
    (∀ i, (IsotropicNoiseCostFunctorWrapper.create (2 : ℚ) two_pos
        (LinearCostFunction 3)).evalRes (fun _ => 5) i =
        1 / 2 * (LinearCostFunction (3 : ℚ)).evalRes (fun _ => 5) i) ∧
    (∀ i j, (IsotropicNoiseCostFunctorWrapper.create (2 : ℚ) two_pos
        (LinearCostFunction 3)).evalJac (fun _ => 5) i j =
        1 / 2 * (LinearCostFunction (3 : ℚ)).evalJac (fun _ => 5) i j) ∧
    (∀ i, (IsotropicNoiseCostFunctorWrapper.create (1 : ℚ) one_pos
        (LinearCostFunction 3)).evalRes (fun _ => 5) i =
        (LinearCostFunction (3 : ℚ)).evalRes (fun _ => 5) i) ∧
    (∀ i, (IsotropicNoiseCostFunctorWrapper.create (2 : ℚ) two_pos
        (LinearCostFunction 3)).evalRes (fun _ => 5) i =
        (LinearCostFunction (3 : ℚ)).evalRes (fun _ => 5) i / 2) :=
  C9_isotropic_noise_wrapper ℚ 1 1 (LinearCostFunction 3) 2 two_pos fun _ => 5

/-- C10: for an identifier carried by one of the known camera models the
dispatcher constructs the handle of the matching compiled specialization with
its declared dimensions; for an identifier outside the known set it never
returns a handle. -/
theorem C10_camera_model_dispatch (K : Type) [Field K] (models : List (CameraModel K))
    (point2D : K × K) (camera_model_id : ℕ) :
    (∀ m, (models.find? fun m => m.model_id == camera_model_id) = some m →
      CreateCameraCostFunction models point2D camera_model_id =
        some ⟨2, [4, 3, 3, m.num_params], m, ReprojErrorCostFunctor.mk' point2D⟩) ∧
    ((∀ m ∈ models, m.model_id ≠ camera_model_id) →
      CreateCameraCostFunction models point2D camera_model_id = none) := by
  constructor
  · intro m hm
    simp [CreateCameraCostFunction, hm]
  · intro hnone
    have hfind : (models.find? fun m => m.model_id == camera_model_id) = none :=
      List.find?_eq_none.mpr fun m hm => by simpa using hnone m hm
    simp [CreateCameraCostFunction, hfind]

/-- Witness for C10 with the known set holding the pinhole model: identifier 0
dispatches to it, identifier 99 is outside the set and yields no handle. -/
theorem C10_camera_model_dispatch_witness :
    CreateCameraCostFunction [simplePinholeModel] ((0 : ℚ), 0) 0 =
      some ⟨2, [4, 3, 3, (simplePinholeModel : CameraModel ℚ).num_params], simplePinholeModel,
        ReprojErrorCostFunctor.mk' (0, 0)⟩ ∧
    CreateCameraCostFunction ([simplePinholeModel] : List (CameraModel ℚ)) (0, 0) 99 =
      none :=
  ⟨(C10_camera_model_dispatch ℚ [simplePinholeModel] (0, 0) 0).1 simplePinholeModel rfl,
   (C10_camera_model_dispatch ℚ [simplePinholeModel] (0, 0) 99).2 (by
      intro m hm
      rw [List.mem_singleton] at hm
      subst hm
      norm_num [simplePinholeModel])⟩

/-- C6: every residual functor's evaluation returns the success flag true for
every input; in particular the Sampson evaluation still returns success in the
degenerate configuration with a zero denominator (the division is unguarded),
and no residual evaluation reports a recoverable error. -/
theorem C6_always_success (K : Type) [Field K] :
    (∀ (cam : CameraModel K) (f : ReprojErrorCostFunctor K) (q : Quat K) (t X : V3 K)
      (p : List K), (f.eval cam q t X p).2 = true) ∧
    (∀ (cam : CameraModel K) (f : ReprojErrorConstantPoseCostFunctor K) (X : V3 K)
      (p : List K), (f.eval cam X p).2 = true) ∧
    (∀ (cam : CameraModel K) (f : ReprojErrorConstantPoint3DCostFunctor K) (q : Quat K)
      (t : V3 K) (p : List K), (f.eval cam q t p).2 = true) ∧
    (∀ (cam : CameraModel K) (f : RigReprojErrorCostFunctor K) (q1 : Quat K) (t1 : V3 K)
      (q2 : Quat K) (t2 X : V3 K) (p : List K), (f.eval cam q1 t1 q2 t2 X p).2 = true) ∧
    (∀ (cam : CameraModel K) (f : RigReprojErrorConstantRigCostFunctor K) (q : Quat K)
      (t X : V3 K) (p : List K), (f.eval cam q t X p).2 = true) ∧
    (∀ (f : SampsonErrorCostFunctor K) (q : Quat K) (t : V3 K), (f.eval q t).2 = true) ∧
    (∀ (f : AbsolutePosePriorCostFunctor) (q : Quat ℝ) (t : V3 ℝ),
      (f.eval q t).2 = true) ∧
    (∀ (f : AbsolutePosePositionPriorCostFunctor) (q : Quat ℝ) (t : V3 ℝ),
      (f.eval q t).2 = true) ∧
    (∀ (f : RelativePosePriorCostFunctor) (qi : Quat ℝ) (ti : V3 ℝ) (qj : Quat ℝ)
      (tj : V3 ℝ), (f.eval qi ti qj tj).2 = true) ∧
    (∀ (f : Point3DAlignmentCostFunctor) (X : V3 ℝ) (q : Quat ℝ) (t : V3 ℝ) (s : ℝ),
      (f.eval X q t s).2 = true) ∧
    ((let t : V3 ℚ := 0
      let E := (⟨0, -t.z, t.y, t.z, 0, -t.x, -t.y, t.x, 0⟩ : M3 ℚ).mul
        (quatOne : Quat ℚ).toRotationMatrix
      let Ex1 := E.mulV3 ⟨0, 0, 1⟩
      let Etx2 := E.transpose.mulV3 ⟨0, 0, 1⟩
      Ex1.x * Ex1.x + Ex1.y * Ex1.y + Etx2.x * Etx2.x + Etx2.y * Etx2.y) = 0 ∧
      ((SampsonErrorCostFunctor.mk' ((0 : ℚ), 0) (0, 0)).eval quatOne 0).2 = true) :=
  ⟨fun _ _ _ _ _ _ => rfl, fun _ _ _ _ => rfl, fun _ _ _ _ _ => rfl,
   fun _ _ _ _ _ _ _ _ => rfl, fun _ _ _ _ _ _ => rfl, fun _ _ _ => rfl, fun _ _ _ => rfl,
   fun _ _ _ => rfl, fun _ _ _ _ _ => rfl, fun _ _ _ _ _ => rfl,
   by norm_num [M3.mul, M3.mulV3, M3.transpose, Quat.toRotationMatrix, quatOne], rfl⟩

end Colmap
